import Mathlib

/-!
# Verification of the PAT signal core

A shallow embedding, over exact rationals, of the signal pipeline of the
repository: the technical-indicator library (`app/signals/technical.py`),
the per-indicator scorers (`app/signals/scoring.py`), the composite
aggregator (`app/signals/composite.py`), the Elliott-wave detector
(`app/signals/elliott_wave.py`), the backtest metrics and day loop
(`app/signals/backtest.py`), and the backtest request validation
(`app/routers/backtest.py`).

Modelling conventions:
* Python floats are modelled by `ℚ` (exact arithmetic).  `round(x, d)`
  is modelled by decimal round-half-to-even (`roundTo`), matching
  CPython's rounding rule.
* A pandas value that can be NaN ("undefined") is an `Option ℚ`;
  rolling windows with insufficient history yield `none`, and a
  division whose denominator is zero yields `none` (pandas produces
  NaN/inf there; every use below either is explicitly guarded in the
  source or funnels into an `isna` check or a clamp; where the source's
  behaviour on a NaN is observable it is noted and reproduced inline).
* A Python function that can raise (an `.iloc[-1]` on an empty series)
  returns `Except Unit ℚ`; `compute_composite`'s `try/except` maps
  `.error` to a 0.0 score.
* `numpy.sqrt` (inside pandas `.std()`) is the one operation with no
  exact rational counterpart; it is abstracted as a parameter
  `sq : ℚ → ℚ` applied to the exact variance.  Every theorem below
  holds for every interpretation of `sq`.
* An OHLCV frame is a `List Bar`; dates are modelled by their integer
  positions (the backtest router's calendar dates by `ℤ` day numbers).
-/

namespace Pat

/- Batteries marks the `Rat` field operations `@[irreducible]`; re-allow
unfolding locally so that concrete witnesses can be settled by `decide`. -/
attribute [local semireducible] Rat.add Rat.mul Rat.sub Rat.inv Rat.ofScientific

deriving instance DecidableEq for Except

/-- One OHLCV row of the price DataFrame. -/
structure Bar where
  high : ℚ
  low : ℚ
  close : ℚ
  volume : ℚ
deriving DecidableEq

/-! ## Numeric helpers -/

/-- `scoring._clamp` / `elliott_wave._clamp` with default bounds −1, 1. -/
def clamp (x : ℚ) (lo : ℚ := -1) (hi : ℚ := 1) : ℚ :=
  max lo (min hi x)

/-- Kernel-computable floor of a rational (Mathlib's `⌊⌋` instance for
`ℚ` does not reduce definitionally). -/
def qfloor (x : ℚ) : ℤ := x.num / x.den

theorem qfloor_eq (x : ℚ) : qfloor x = ⌊x⌋ := (Rat.floor_def).symm

/-- Round-half-to-even to an integer (CPython's `round`). -/
def rndHE (x : ℚ) : ℤ :=
  if x - qfloor x < 1/2 then qfloor x
  else if 1/2 < x - qfloor x then qfloor x + 1
  else if qfloor x % 2 = 0 then qfloor x else qfloor x + 1

/-- `round(x, d)`: decimal rounding at `d` places, half-to-even. -/
def roundTo (d : ℕ) (x : ℚ) : ℚ :=
  (rndHE (x * 10 ^ d) : ℚ) / 10 ^ d

theorem rndHE_le_ceil (x : ℚ) : rndHE x ≤ ⌈x⌉ := by
  have hfc := Int.floor_le_ceil x
  have hlt : 1/2 ≤ x - ⌊x⌋ → ⌊x⌋ + 1 ≤ ⌈x⌉ := by
    intro h
    have hx : (⌊x⌋ : ℚ) < x := by linarith
    exact Int.add_one_le_iff.mpr (Int.lt_ceil.mpr hx)
  unfold rndHE
  rw [qfloor_eq]
  split_ifs with h1 h2 h3
  · exact hfc
  · exact hlt (by linarith)
  · exact hfc
  · exact hlt (by linarith)

theorem floor_le_rndHE (x : ℚ) : ⌊x⌋ ≤ rndHE x := by
  unfold rndHE
  rw [qfloor_eq]
  split_ifs <;> omega

/-- `roundTo` maps `[-B·10^-d, B·10^-d]` into itself. -/
theorem roundTo_bound {d : ℕ} {x : ℚ} {B : ℤ}
    (h : |x| ≤ (B : ℚ) / 10 ^ d) : |roundTo d x| ≤ (B : ℚ) / 10 ^ d := by
  have hp : (0:ℚ) < (10:ℚ) ^ d := by positivity
  rw [abs_le] at h
  have hxB : x * 10 ^ d ≤ (B : ℚ) := (le_div_iff₀ hp).mp h.2
  have hBx : (-B : ℚ) ≤ x * 10 ^ d := by
    have h1 : (-B : ℚ) / 10 ^ d ≤ x := by
      rw [neg_div]
      exact h.1
    exact (div_le_iff₀ hp).mp h1
  have h2 : ⌈x * 10 ^ d⌉ ≤ B := Int.ceil_le.mpr (by exact_mod_cast hxB)
  have h3 : -B ≤ ⌊x * 10 ^ d⌋ := Int.le_floor.mpr (by exact_mod_cast hBx)
  have hu : rndHE (x * 10 ^ d) ≤ B := le_trans (rndHE_le_ceil _) h2
  have hl : -B ≤ rndHE (x * 10 ^ d) := le_trans h3 (floor_le_rndHE _)
  rw [abs_le]
  unfold roundTo
  constructor
  · have hq : ((-B : ℤ) : ℚ) / 10 ^ d ≤ (rndHE (x * 10 ^ d) : ℚ) / 10 ^ d :=
      (div_le_div_iff_of_pos_right hp).mpr (by exact_mod_cast hl)
    rw [Int.cast_neg, neg_div] at hq
    exact hq
  · exact (div_le_div_iff_of_pos_right hp).mpr (by exact_mod_cast hu)

theorem clamp_bounds (x : ℚ) : -1 ≤ clamp x ∧ clamp x ≤ 1 := by
  unfold clamp
  constructor
  · exact le_max_left _ _
  · simp only [max_le_iff]
    exact ⟨by norm_num, min_le_left _ _⟩

theorem clamp_mem (x : ℚ) : clamp x ∈ Set.Icc (-1 : ℚ) 1 :=
  ⟨(clamp_bounds x).1, (clamp_bounds x).2⟩

/-- `clamp` is the identity inside `[-1, 1]`. -/
theorem clamp_eq_self {x : ℚ} (h1 : -1 ≤ x) (h2 : x ≤ 1) : clamp x = x := by
  unfold clamp
  rw [min_eq_right h2, max_eq_right h1]

/-! ## Series machinery

A pandas `Series` of floats is a `List ℚ` when it can hold no NaN and a
`List (Option ℚ)` (`OSeries`) otherwise.  Rolling aggregations follow
pandas defaults: `min_periods = window`, so a window that is not yet
full — or that contains a NaN — yields `none`. -/

abbrev OSeries := List (Option ℚ)

/-- The last `n` elements (`.iloc[-n:]`; the whole list when shorter). -/
def lastN (n : ℕ) (xs : List α) : List α := xs.drop (xs.length - n)

def mean (xs : List ℚ) : ℚ := xs.sum / xs.length

/-- Sample variance with `ddof = 1` (the pandas `.std()` default squared);
only used on windows of length ≥ 2. -/
def sampleVar (xs : List ℚ) : ℚ :=
  let m := mean xs
  (xs.map (fun x => (x - m) ^ 2)).sum / ((xs.length : ℚ) - 1)

def minQ : List ℚ → ℚ
  | [] => 0
  | x :: t => t.foldl min x

def maxQ : List ℚ → ℚ
  | [] => 0
  | x :: t => t.foldl max x

/-- The window of width `w` ending at index `i` (inclusive). -/
def window (w i : ℕ) (xs : List α) : List α := (xs.take (i + 1)).drop (i + 1 - w)

/-- `rolling(window=w).agg` over a NaN-free series. -/
def rollingQ (w : ℕ) (f : List ℚ → ℚ) (xs : List ℚ) : OSeries :=
  (List.range xs.length).map fun i =>
    if i + 1 < w then none else some (f (window w i xs))

/-- `rolling(window=w).agg` over a series that may hold NaN: a window
containing a NaN yields NaN. -/
def rollingO (w : ℕ) (f : List ℚ → ℚ) (xs : OSeries) : OSeries :=
  (List.range xs.length).map fun i =>
    if i + 1 < w then none
    else
      let ws := window w i xs
      if ws.all (·.isSome) then some (f ws.reduceOption) else none

def cumsum (xs : List ℚ) : List ℚ := (List.scanl (· + ·) 0 xs).drop 1

/-- Consecutive differences `s.diff()` (without its leading NaN slot). -/
def diffs (xs : List ℚ) : List ℚ :=
  List.zipWith (fun prev cur => cur - prev) xs (xs.drop 1)

def posPart (x : ℚ) : ℚ := if x > 0 then x else 0

def negPart (x : ℚ) : ℚ := if x < 0 then -x else 0

def sign (x : ℚ) : ℚ := if x > 0 then 1 else if x < 0 then -1 else 0

/-! ## Indicator library (`app/signals/technical.py`) -/

/-- `technical.sma`. -/
def sma (w : ℕ) (prices : List ℚ) : OSeries := rollingQ w mean prices

/-- `technical.ema`: `ewm(span=span, adjust=False).mean()`, seeded by the
first value, smoothing factor `2/(span+1)`. -/
def emaList (span : ℕ) (prices : List ℚ) : List ℚ :=
  match prices with
  | [] => []
  | x :: rest => List.scanl (fun e v => e + 2 / (span + 1) * (v - e)) x rest

/-- `technical.rsi`.  `delta.where(delta > 0, 0.0)` turns the leading NaN
of `diff()` into a gain/loss of 0, so the rolling mean is defined from
index `period − 1` on.  `rs = gain/loss` with `loss = 0` gives `inf`
(hence RSI 100) for a positive gain and NaN (undefined) for `0/0`. -/
def rsiSeries (period : ℕ) (prices : List ℚ) : OSeries :=
  match prices with
  | [] => []
  | _ :: _ =>
    let g := rollingQ period mean (0 :: (diffs prices).map posPart)
    let l := rollingQ period mean (0 :: (diffs prices).map negPart)
    List.zipWith (fun go lo =>
      match go, lo with
      | some gv, some lv =>
        if lv = 0 then (if gv = 0 then none else some 100)
        else some (100 - 100 / (1 + gv / lv))
      | _, _ => none) g l

/-- `technical.macd`: the MACD line `EMA(12) − EMA(26)`. -/
def macdLine (prices : List ℚ) : List ℚ :=
  List.zipWith (· - ·) (emaList 12 prices) (emaList 26 prices)

/-- `technical.macd`: the signal line `EMA(9)` of the MACD line. -/
def macdSignal (prices : List ℚ) : List ℚ := emaList 9 (macdLine prices)

/-- `technical.macd`: histogram = MACD line − signal line. -/
def macdHistogram (prices : List ℚ) : List ℚ :=
  List.zipWith (· - ·) (macdLine prices) (macdSignal prices)

/-- `technical.obv`: cumulative sum of `volume * sign(close.diff())`,
with the leading NaN term filled with 0. -/
def obvList (close volume : List ℚ) : List ℚ :=
  match close with
  | [] => []
  | _ :: _ =>
    cumsum (0 :: List.zipWith (fun d v => v * sign d) (diffs close) (volume.drop 1))

/-- Money-flow volume of one bar, with `high = low` giving NaN → 0
(`fillna(0)` in `accumulation_distribution`). -/
def mfvTerm (b : Bar) : ℚ :=
  if b.high - b.low = 0 then 0
  else ((b.close - b.low) - (b.high - b.close)) / (b.high - b.low) * b.volume

/-- `technical.accumulation_distribution`. -/
def adLine (bars : List Bar) : List ℚ := cumsum (bars.map mfvTerm)

/-- Money-flow volume as pandas computes it in `chaikin_money_flow`
(no `fillna`, so a `high = low` bar poisons its windows). -/
def mfvOpt (b : Bar) : Option ℚ :=
  if b.high - b.low = 0 then none
  else some (((b.close - b.low) - (b.high - b.close)) / (b.high - b.low) * b.volume)

/-- `technical.chaikin_money_flow`. -/
def cmfSeries (bars : List Bar) (period : ℕ := 20) : OSeries :=
  let mfvSum := rollingO period List.sum (bars.map mfvOpt)
  let volSum := rollingQ period List.sum (bars.map Bar.volume)
  List.zipWith (fun m v =>
    match m, v with
    | some mv, some vv => if vv = 0 then none else some (mv / vv)
    | _, _ => none) mfvSum volSum

/-- True range per bar: `max(high − low, |high − prev_close|, |low − prev_close|)`;
the first bar (NaN `prev_close`, skipped by `.max(axis=1)`) gives `high − low`. -/
def trList (bars : List Bar) : List ℚ :=
  match bars with
  | [] => []
  | b0 :: rest =>
    (b0.high - b0.low) ::
      List.zipWith (fun prev b =>
        max (b.high - b.low) (max |b.high - prev.close| |b.low - prev.close|)) bars rest

/-- `technical.atr`: rolling mean of the true range. -/
def atrSeries (bars : List Bar) (period : ℕ := 14) : OSeries :=
  rollingQ period mean (trList bars)

/-- `technical.stochastic`: %K with the zero denominator replaced by NaN. -/
def stochK (bars : List Bar) (kPeriod : ℕ := 14) : OSeries :=
  let ll := rollingQ kPeriod minQ (bars.map Bar.low)
  let hh := rollingQ kPeriod maxQ (bars.map Bar.high)
  List.zipWith (fun (p : Option ℚ × Option ℚ) c =>
    match p.1, p.2 with
    | some lo, some hi => if hi - lo = 0 then none else some (100 * (c - lo) / (hi - lo))
    | _, _ => none) (ll.zip hh) (bars.map Bar.close)

/-- `technical.stochastic`: %D = SMA(%K, d_period). -/
def stochD (bars : List Bar) (kPeriod : ℕ := 14) (dPeriod : ℕ := 3) : OSeries :=
  rollingO dPeriod mean (stochK bars kPeriod)

/-- `technical.adx` directional movements.  The `.where` filters run in
sequence in the source: `minus_dm` is compared against the already
filtered `plus_dm`. -/
def dmPair (prev b : Bar) : ℚ × ℚ :=
  let a := b.high - prev.high
  let c := prev.low - b.low
  let pdm := if a > c ∧ a > 0 then a else 0
  let mdm := if c > pdm ∧ c > 0 then c else 0
  (pdm, mdm)

def plusDMList (bars : List Bar) : List ℚ :=
  match bars with
  | [] => []
  | _ :: rest => 0 :: List.zipWith (fun p b => (dmPair p b).1) bars rest

def minusDMList (bars : List Bar) : List ℚ :=
  match bars with
  | [] => []
  | _ :: rest => 0 :: List.zipWith (fun p b => (dmPair p b).2) bars rest

/-- `100 * dm_smooth / atr_smooth`, NaN on an empty smoothing window or a
zero denominator. -/
def diOf (dm atr : Option ℚ) : Option ℚ :=
  match dm, atr with
  | some d, some a => if a = 0 then none else some (100 * d / a)
  | _, _ => none

/-- `technical.adx`: (ADX, +DI, −DI). -/
def adxTriple (bars : List Bar) (period : ℕ := 14) : OSeries × OSeries × OSeries :=
  let atrS := rollingQ period List.sum (trList bars)
  let pdmS := rollingQ period List.sum (plusDMList bars)
  let mdmS := rollingQ period List.sum (minusDMList bars)
  let pdi := List.zipWith diOf pdmS atrS
  let mdi := List.zipWith diOf mdmS atrS
  let dx := List.zipWith (fun p m =>
    match p, m with
    | some pv, some mv =>
      if pv + mv = 0 then none else some (100 * |pv - mv| / (pv + mv))
    | _, _ => none) pdi mdi
  (rollingO period mean dx, pdi, mdi)

/-! ## Scorers (`app/signals/scoring.py`)

Each scorer returns `Except Unit ℚ`: `.error` marks the inputs on which
the Python function raises (an `.iloc[-1]` on an empty series), which
`compute_composite`'s `try/except` later converts to a 0.0 score. -/

/-- `.iloc[-1]`: the last element, raising on an empty series. -/
def ilast (xs : List α) : Except Unit α :=
  match xs.getLast? with
  | none => .error ()
  | some v => .ok v

/-- `scoring.score_ma_crossover`. -/
def score_ma_crossover (close : List ℚ) (fast : ℕ := 20) (slow : ℕ := 50) :
    Except Unit ℚ := do
  let f? ← ilast (sma fast close)
  let s? ← ilast (sma slow close)
  match f?, s? with
  | some f, some s =>
    -- gap_pct = (fast − slow)/slow, scaled so a 2% gap scores ±1.
    -- (ℚ division by a zero `slow` gives 0 where floats give ±inf/NaN;
    -- both land inside the clamp and no claim distinguishes them.)
    pure (clamp ((f - s) / s / (2/100)))
  | _, _ => pure 0

/-- `scoring.score_rsi`. -/
def score_rsi (close : List ℚ) (period : ℕ := 14) : Except Unit ℚ := do
  let r? ← ilast (rsiSeries period close)
  match r? with
  | none => pure 0
  | some value =>
    if value ≤ 30 then pure (clamp ((30 - value) / 20))
    else if value ≥ 70 then pure (clamp (-(value - 70) / 20))
    else pure 0

/-- `scoring.score_macd`.  `recent_range = close.iloc[-26:].std()`. -/
def score_macd (sq : ℚ → ℚ) (close : List ℚ) : Except Unit ℚ := do
  let h ← ilast (macdHistogram close)
  let recent := lastN 26 close
  if recent.length < 2 then
    -- `.std()` of fewer than 2 values is NaN; `NaN == 0` is False, the
    -- division gives NaN, and `_clamp` (Python `max(-1, min(1, NaN))`)
    -- evaluates to 1.0.
    pure 1
  else
    let r := sq (sampleVar recent)
    if r = 0 then pure 0
    else pure (clamp (h / r))

/-- `scoring.score_bollinger`: `%B = (close − lower)/(upper − lower)`
with bands `SMA ± 2·std` over the window. -/
def score_bollinger (sq : ℚ → ℚ) (close : List ℚ) (w : ℕ := 20) : Except Unit ℚ := do
  let c ← ilast close
  if close.length < w then pure 0   -- pct_b.isna().iloc[-1]
  else
    let win := lastN w close
    let m := mean win
    let s := sq (sampleVar win)
    if 4 * s = 0 then pure 0  -- zero band width: pct_b is NaN (0/0) → 0.0
    else
      let pb := (c - (m - 2 * s)) / (4 * s)
      pure (clamp (-(pb - 1/2) * 2))

/-- `scoring.score_mean_reversion`: `z = (close − SMA)/std`, score `−z/2`. -/
def score_mean_reversion (sq : ℚ → ℚ) (close : List ℚ) (w : ℕ := 20) :
    Except Unit ℚ := do
  let c ← ilast close
  if close.length < w then pure 0   -- ma.isna().iloc[-1]
  else
    let win := lastN w close
    let m := mean win
    let s := sq (sampleVar win)
    if s = 0 then pure 0
    else pure (clamp (-((c - m) / s) / 2))

/-- `scoring.score_trend`: EMA-20/50/200 alignment, contributions
`±0.33`, `±0.33`, `±0.34` (note: not thirds). -/
def score_trend (close : List ℚ) : Except Unit ℚ := do
  let c ← ilast close   -- ema200.isna().iloc[-1] raises on an empty frame
  let e20 := (emaList 20 close).getLastD 0
  let e50 := (emaList 50 close).getLastD 0
  let e200 := (emaList 200 close).getLastD 0
  let s1 : ℚ := if e20 > e50 then 33/100 else -(33/100)
  let s2 : ℚ := if e50 > e200 then 33/100 else -(33/100)
  let s3 : ℚ := if c > e200 then 34/100 else -(34/100)
  pure (clamp (s1 + s2 + s3))

/-- `scoring.score_volume_trend`. -/
def score_volume_trend (close volume : List ℚ) (w : ℕ := 20) : Except Unit ℚ := do
  let obvS := obvList close volume
  if obvS.length < w then pure 0
  else
    let obvMa := mean (lastN w obvS)
    if obvMa = 0 then pure 0
    else
      let dev := (obvS.getLastD 0 - obvMa) / |obvMa|
      let priceDir : ℚ := if close.getLastD 0 > mean (lastN w close) then 1 else -1
      if (dev > 0 ∧ priceDir > 0) ∨ (dev < 0 ∧ priceDir < 0) then
        pure (clamp (priceDir * min |dev| 1))
      else pure 0

/-- `scoring.score_adx` (takes high/low/close through `bars`). -/
def score_adx (bars : List Bar) : Except Unit ℚ := do
  let t := adxTriple bars
  let a? ← ilast t.1
  match a? with
  | none => pure 0
  | some adxVal =>
    let plusVal := (t.2.1.getLastD none).getD 0
    let minusVal := (t.2.2.getLastD none).getD 0
    if adxVal < 20 then pure 0
    else
      let strength := clamp ((adxVal - 20) / 30) 0 1 * (1/2) + 1/2
      if plusVal > minusVal then pure (clamp strength)
      else pure (clamp (-strength))

/-- `scoring.score_stochastic`. -/
def score_stochastic (bars : List Bar) : Except Unit ℚ := do
  let k? ← ilast (stochK bars)
  let d? ← ilast (stochD bars)
  match k?, d? with
  | some kVal, some dVal =>
    let base : ℚ :=
      if kVal ≤ 20 then clamp ((20 - kVal) / 20)
      else if kVal ≥ 80 then clamp (-(kVal - 80) / 20)
      else 0
    if bars.length ≥ 2 then
      let prevK? := (stochK bars).getD (bars.length - 2) none
      let prevD? := (stochD bars).getD (bars.length - 2) none
      match prevK?, prevD? with
      | some pk, some pd => --
        if pk ≤ pd ∧ kVal > dVal then pure (clamp (base + 3/10))
        else if pk ≥ pd ∧ kVal < dVal then pure (clamp (base - 3/10))
        else pure base
      | _, _ => pure base
    else pure base
  | _, _ => pure 0

/-- `scoring.score_ad_line`. -/
def score_ad_line (bars : List Bar) (w : ℕ := 20) : Except Unit ℚ := do
  let ad := adLine bars
  if ad.length < w then pure 0
  else
    let adMa := mean (lastN w ad)
    let priceMa := mean (lastN w (bars.map Bar.close))
    let adRising := ad.getLastD 0 > adMa
    let priceRising := (bars.map Bar.close).getLastD 0 > priceMa
    if adRising ∧ priceRising then pure (1/2)
    else if ¬adRising ∧ ¬priceRising then pure (-(1/2))
    else if adRising ∧ ¬priceRising then pure (7/10)
    else pure (-(7/10))

/-- `scoring.score_cmf`. -/
def score_cmf (bars : List Bar) : Except Unit ℚ := do
  let c? ← ilast (cmfSeries bars)
  match c? with
  | none => pure 0
  | some v => pure (clamp (v * 2))

/-- `scoring.score_put_call_ratio` (absent or NaN input is `none`). -/
def score_put_call_ratio (ratio : Option ℚ) : ℚ :=
  match ratio with
  | none => 0
  | some r =>
    if r > 12/10 then clamp ((r - 12/10) / (8/10))
    else if r < 1/2 then clamp (-(1/2 - r) / (1/2))
    else 0

/-! ## Composite aggregator (`app/signals/composite.py`) -/

structure SignalDetail where
  name : String
  score : ℚ
  weight : ℚ
  description : String
deriving DecidableEq

structure CompositeSignal where
  symbol : String
  direction : String
  conviction : String
  composite_score : ℚ
  confidence : ℤ
  signals : List SignalDetail
deriving DecidableEq

/-- `composite._direction`. -/
def directionOf (score : ℚ) : String :=
  if score ≥ 2/10 then "buy"
  else if score ≤ -(2/10) then "sell"
  else "hold"

/-- `composite._conviction`. -/
def convictionOf (score : ℚ) : String :=
  if |score| ≥ 6/10 then "high"
  else if |score| ≥ 3/10 then "medium"
  else "low"

/-- The per-signal direction classification inside `composite._confidence`:
`1 if s.score > 0.1 else (-1 if s.score < -0.1 else 0)`. -/
def classifyDir (s : ℚ) : ℤ :=
  if s > 1/10 then 1 else if s < -(1/10) then -1 else 0

/-- `composite._confidence`.  Note the final `int(...)`, which truncates
toward zero; the argument is nonnegative here, so it is a floor. -/
def confidenceOf (signals : List SignalDetail) : ℤ :=
  if signals = [] then 0
  else
    let dirs := signals.map (fun s => classifyDir s.score)
    let nonNeutral := dirs.filter (· ≠ 0)
    if nonNeutral = [] then 20
    else
      let agreement : ℚ := |(nonNeutral.sum : ℚ)| / nonNeutral.length
      let dataQuality : ℚ := (nonNeutral.length : ℚ) / signals.length
      qfloor (min 100 (agreement * 70 + dataQuality * 30))

/-- `composite.WEIGHTS`. -/
def WEIGHTS : List (String × ℚ) :=
  [("ma_crossover", 10/100), ("rsi", 10/100), ("macd", 10/100),
   ("bollinger", 7/100), ("mean_reversion", 7/100), ("trend", 12/100),
   ("volume", 8/100), ("adx", 10/100), ("stochastic", 8/100),
   ("ad_line", 6/100), ("cmf", 7/100), ("put_call_ratio", 5/100)]

def weightOf (n : String) : ℚ := ((WEIGHTS.find? (·.1 = n)).map (·.2)).getD 0

/-- The `evaluators` table of `compute_composite` (name, description);
the scores are evaluated separately so that a raising evaluator can be
modelled (see `compositeCore`). -/
def evaluatorMeta : List (String × String) :=
  [("ma_crossover", "SMA 20/50 crossover"),
   ("rsi", "RSI (14) overbought/oversold"),
   ("macd", "MACD histogram momentum"),
   ("bollinger", "Bollinger Band %B position"),
   ("mean_reversion", "Z-score mean reversion"),
   ("trend", "EMA 20/50/200 alignment"),
   ("volume", "OBV trend confirmation"),
   ("adx", "ADX trend strength"),
   ("stochastic", "Stochastic %K/%D oscillator"),
   ("ad_line", "A/D line vs price trend"),
   ("cmf", "Chaikin Money Flow pressure")]

/-- The eleven `fn(*args)` evaluations of `compute_composite`, in table
order. -/
def evalScores (sq : ℚ → ℚ) (df : List Bar) : List (Except Unit ℚ) :=
  [score_ma_crossover (df.map Bar.close),
   score_rsi (df.map Bar.close),
   score_macd sq (df.map Bar.close),
   score_bollinger sq (df.map Bar.close),
   score_mean_reversion sq (df.map Bar.close),
   score_trend (df.map Bar.close),
   score_volume_trend (df.map Bar.close) (df.map Bar.volume),
   score_adx df,
   score_stochastic df,
   score_ad_line df,
   score_cmf df]

/-- The `try: score = fn(*args) except Exception: score = 0.0` wrapper. -/
def caught (r : Except Unit ℚ) : ℚ :=
  match r with
  | .ok s => s
  | .error _ => 0

/-- The weight-redistribution block of `compute_composite` (runs when
`put_call_ratio is None`). -/
def redistribute (sigs : List SignalDetail) : List SignalDetail :=
  let otherSum := ((sigs.filter (fun s => s.name ≠ "put_call_ratio")).map (·.weight)).sum
  if otherSum > 0 then
    sigs.map fun s =>
      if s.name ≠ "put_call_ratio" then
        { s with weight := roundTo 4 (s.weight * (1 / otherSum)) }
      else { s with weight := 0 }
  else sigs

/-- The body of `compute_composite` after the eleven evaluator calls:
assemble `SignalDetail`s (catching per-evaluator exceptions), append the
put/call entry, redistribute weights if the ratio is absent, and derive
the composite fields. -/
def compositeCore (symbol : String) (results : List (Except Unit ℚ))
    (pcr : Option ℚ) : CompositeSignal :=
  let pcScore := score_put_call_ratio pcr
  let base : List SignalDetail := (evaluatorMeta.zip results).map fun p =>
    { name := p.1.1, score := roundTo 4 (caught p.2), weight := weightOf p.1.1,
      description := p.1.2 }
  let sigs0 := base ++
    [{ name := "put_call_ratio", score := roundTo 4 pcScore,
       weight := weightOf "put_call_ratio",
       description := "Put/call ratio contrarian sentiment" }]
  let sigs := if pcr.isNone then redistribute sigs0 else sigs0
  let composite := clamp ((sigs.map (fun s => s.score * s.weight)).sum)
  { symbol := symbol,
    direction := directionOf composite,
    conviction := convictionOf composite,
    composite_score := roundTo 4 composite,
    confidence := confidenceOf sigs,
    signals := sigs }

/-- `composite.compute_composite`. -/
def compute_composite (sq : ℚ → ℚ) (symbol : String) (df : List Bar)
    (pcr : Option ℚ := none) : CompositeSignal :=
  compositeCore symbol (evalScores sq df) pcr

/-! ## Backtest engine (`app/signals/backtest.py`) -/

structure HorizonMetrics where
  hit_rate : ℚ
  avg_signal_return : ℚ
  profit_factor : Option ℚ
  total_signals : ℕ
  wins : ℕ
  losses : ℕ
deriving DecidableEq

/-- `backtest._compute_horizon_metrics`. -/
def compute_horizon_metrics (scores : List ℚ) (forwardReturns : List (Option ℚ)) :
    HorizonMetrics :=
  let pairs := (scores.zip forwardReturns).filterMap
    (fun p => p.2.map (fun r => (p.1, r)))
  if pairs = [] then
    { hit_rate := 0, avg_signal_return := 0, profit_factor := none,
      total_signals := 0, wins := 0, losses := 0 }
  else
    let signalReturns := pairs.map (fun p => p.1 * p.2)
    let wins := (signalReturns.filter (fun sr => sr > 0)).length
    let losses := (signalReturns.filter (fun sr => sr < 0)).length
    let total := pairs.length
    let hits := (pairs.filter (fun p => (p.1 > 0 ∧ p.2 > 0) ∨ (p.1 < 0 ∧ p.2 < 0))).length
    { hit_rate := roundTo 2 ((hits : ℚ) / total * 100),
      avg_signal_return := roundTo 4 (signalReturns.sum / total),
      profit_factor :=
        (let posSum := (signalReturns.filter (fun sr => sr > 0)).sum
         let negSum := |(signalReturns.filter (fun sr => sr < 0)).sum|
         if negSum > 0 then some (roundTo 4 (posSum / negSum)) else none),
      total_signals := total, wins := wins, losses := losses }

/-- One step of the `for day in trading_days` loop of `run_backtest`:
`df_slice = df.loc[:day]` (inclusive), the day skipped when the slice
has fewer than 50 bars, otherwise `compute_composite(symbol, df_slice)`
(the backtest passes no put/call ratio). -/
def backtestSignalAt (sq : ℚ → ℚ) (symbol : String) (df : List Bar) (d : ℕ) :
    Option CompositeSignal :=
  let dfSlice := df.take (d + 1)
  if dfSlice.length < 50 then none
  else some (compute_composite sq symbol dfSlice none)

/-- The sequence of composite signals the backtest loop records when the
trading-day window covers the whole frame. -/
def runBacktestSignals (sq : ℚ → ℚ) (symbol : String) (df : List Bar) :
    List CompositeSignal :=
  (List.range df.length).filterMap (backtestSignalAt sq symbol df)

/-! ## Backtest request validation (`app/routers/backtest.py`)

Calendar dates are modelled as integer day numbers. -/

def MAX_RANGE_DAYS : ℤ := 730

/-- The guard chain of `routers.backtest.backtest`: `True` iff the
request is rejected with an HTTP 400 before `run_backtest` is called. -/
def backtestRejects (today s e : ℤ) : Bool :=
  if e > today then true
  else if s ≥ e then true
  else if e - s > MAX_RANGE_DAYS then true
  else false

/-! ## Elliott-wave detector (`app/signals/elliott_wave.py`) -/

inductive PivotType
  | high
  | low
deriving DecidableEq

structure Pivot where
  index : ℕ
  price : ℚ
  ptype : PivotType
deriving DecidableEq

/-- The zigzag automaton state: `direction` (0 = seeking, 1 = tracking
up, −1 = tracking down), the extreme candidates, and the pivots emitted
so far. -/
structure ZZState where
  direction : ℤ
  lastHighIdx : ℕ
  lastHighVal : ℚ
  lastLowIdx : ℕ
  lastLowVal : ℚ
  pivots : List Pivot
deriving DecidableEq

def zzInit (b0 : Bar) : ZZState :=
  { direction := 0, lastHighIdx := 0, lastHighVal := b0.high,
    lastLowIdx := 0, lastLowVal := b0.low, pivots := [] }

/-- One iteration of the `for i in range(1, n)` loop of `zigzag_pivots`. -/
def zzStep (ms : ℚ) (st : ZZState) (i : ℕ) (b : Bar) : ZZState :=
  if st.direction = 0 then
    if b.high - st.lastLowVal ≥ ms then
      { st with
        pivots := st.pivots ++ [⟨st.lastLowIdx, st.lastLowVal, .low⟩]
        direction := 1
        lastHighIdx := i
        lastHighVal := b.high }
    else if st.lastHighVal - b.low ≥ ms then
      { st with
        pivots := st.pivots ++ [⟨st.lastHighIdx, st.lastHighVal, .high⟩]
        direction := -1
        lastLowIdx := i
        lastLowVal := b.low }
    else
      let st1 := if b.high > st.lastHighVal then
        { st with
          lastHighIdx := i
          lastHighVal := b.high } else st
      if b.low < st1.lastLowVal then
        { st1 with
          lastLowIdx := i
          lastLowVal := b.low } else st1
  else if st.direction = 1 then
    if b.high > st.lastHighVal then
      { st with
        lastHighIdx := i
        lastHighVal := b.high }
    else if st.lastHighVal - b.low ≥ ms then
      { st with
        pivots := st.pivots ++ [⟨st.lastHighIdx, st.lastHighVal, .high⟩]
        direction := -1
        lastLowIdx := i
        lastLowVal := b.low }
    else st
  else
    if b.low < st.lastLowVal then
      { st with
        lastLowIdx := i
        lastLowVal := b.low }
    else if b.high - st.lastLowVal ≥ ms then
      { st with
        pivots := st.pivots ++ [⟨st.lastLowIdx, st.lastLowVal, .low⟩]
        direction := 1
        lastHighIdx := i
        lastHighVal := b.high }
    else st

/-- The bar-by-bar loop, carrying the next index alongside the suffix of
bars still to process. -/
def zzLoop (ms : ℚ) : ℕ → List Bar → ZZState → ZZState
  | _, [], st => st
  | i, b :: rest, st => zzLoop ms (i + 1) rest (zzStep ms st i b)

/-- `Series.median()`: middle element of the sorted list, or the mean of
the two middle elements for an even length. -/
def medianQ (xs : List ℚ) : ℚ :=
  let sorted := List.insertionSort (· ≤ ·) xs
  let n := xs.length
  if n % 2 = 1 then sorted.getD (n / 2) 0
  else (sorted.getD (n / 2 - 1) 0 + sorted.getD (n / 2) 0) / 2

/-- `min_swing = median(dropna(ATR-14)) * atr_threshold` with the default
`atr_threshold = 1.5`; `none` when every ATR value is NaN. -/
def minSwingOf (bars : List Bar) : Option ℚ :=
  let validAtr := (atrSeries bars).reduceOption
  if validAtr.length = 0 then none
  else some (medianQ validAtr * (3/2))

/-- `elliott_wave.zigzag_pivots`.  After the loop, the pending extreme is
appended as a final pivot without any retracement confirmation. -/
def zigzag_pivots (bars : List Bar) : List Pivot :=
  if bars.length < 20 then []
  else
    match minSwingOf bars, bars with
    | some ms, b0 :: rest =>
      let final := zzLoop ms 1 rest (zzInit b0)
      final.pivots ++
        (if final.direction = 1 then [⟨final.lastHighIdx, final.lastHighVal, .high⟩]
         else if final.direction = -1 then [⟨final.lastLowIdx, final.lastLowVal, .low⟩]
         else [])
    | _, _ => []

/-- `elliott_wave._ratio_score`. -/
def ratio_score (actual lo hi : ℚ) : ℚ :=
  if lo ≤ actual ∧ actual ≤ hi then 1
  else
    let width := hi - lo
    if width = 0 then 0
    else if actual < lo then max 0 (1 - (lo - actual) / width)
    else max 0 (1 - (actual - hi) / width)

def pvPrice (l : List Pivot) (i : ℕ) : ℚ := ((l.get? i).map (·.price)).getD 0

/-- The guarded per-ratio scores of `validate_fibonacci_ratios` (band
bounds from `_FIB_RATIOS`). -/
def fibScores (pivots : List Pivot) : List ℚ :=
  let w1 := |pvPrice pivots 1 - pvPrice pivots 0|
  let w2r := |pvPrice pivots 2 - pvPrice pivots 1|
  let w3 := |pvPrice pivots 3 - pvPrice pivots 2|
  let w4r := |pvPrice pivots 4 - pvPrice pivots 3|
  let w5 := |pvPrice pivots 5 - pvPrice pivots 4|
  (if w1 ≠ 0 then [ratio_score (w2r / w1) (382/1000) (618/1000)] else []) ++
  (if w1 ≠ 0 then [ratio_score (w3 / w1) (1272/1000) (2618/1000)] else []) ++
  (if w3 ≠ 0 then [ratio_score (w4r / w3) (236/1000) (500/1000)] else []) ++
  (if w1 ≠ 0 then [ratio_score (w5 / w1) (618/1000) (1618/1000)] else [])

/-- The `confidence` field of `validate_fibonacci_ratios`. -/
def validateFibConfidence (pivots : List Pivot) : ℚ :=
  if pivots.length < 6 then 0
  else
    let scores := fibScores pivots
    if scores = [] then 0
    else roundTo 3 (mean scores)

/-- `elliott_wave._is_impulse_up`. -/
def isImpulseUp (pivots : List Pivot) : Bool :=
  if pivots.length < 6 then false
  else
    let ps := pivots.take 6
    if (ps.map (·.ptype)) ≠ [.low, .high, .low, .high, .low, .high] then false
    else
      let w1 := pvPrice ps 1 - pvPrice ps 0
      let w3 := pvPrice ps 3 - pvPrice ps 2
      let w5 := pvPrice ps 5 - pvPrice ps 4
      if w3 < w1 ∧ w3 < w5 then false
      else if pvPrice ps 4 < pvPrice ps 1 then false
      else true

/-- `elliott_wave._is_impulse_down`. -/
def isImpulseDown (pivots : List Pivot) : Bool :=
  if pivots.length < 6 then false
  else
    let ps := pivots.take 6
    if (ps.map (·.ptype)) ≠ [.high, .low, .high, .low, .high, .low] then false
    else
      let w1 := pvPrice ps 0 - pvPrice ps 1
      let w3 := pvPrice ps 2 - pvPrice ps 3
      let w5 := pvPrice ps 4 - pvPrice ps 5
      if w3 < w1 ∧ w3 < w5 then false
      else if pvPrice ps 4 > pvPrice ps 1 then false
      else true

/-- `elliott_wave._is_corrective_up`. -/
def isCorrectiveUp (pivots : List Pivot) : Bool :=
  if pivots.length < 4 then false
  else ((pivots.take 4).map (·.ptype)) = [.low, .high, .low, .high]

/-- `elliott_wave._is_corrective_down`. -/
def isCorrectiveDown (pivots : List Pivot) : Bool :=
  if pivots.length < 4 then false
  else ((pivots.take 4).map (·.ptype)) = [.high, .low, .high, .low]

inductive WavePattern
  | impulse_up
  | impulse_down
  | corrective_up
  | corrective_down
  | unclear
deriving DecidableEq

/-- `"up" in pattern`. -/
def patternIsUp : WavePattern → Bool
  | .impulse_up => true
  | .corrective_up => true
  | _ => false

/-- `"impulse" in pattern`. -/
def patternIsImpulse : WavePattern → Bool
  | .impulse_up => true
  | .impulse_down => true
  | _ => false

/-- `"corrective" in pattern`. -/
def patternIsCorrective : WavePattern → Bool
  | .corrective_up => true
  | .corrective_down => true
  | _ => false

structure FibLevel where
  level : ℚ
  ratio : String
  label : String
deriving DecidableEq

def FIB_PROJ : List (ℚ × String) :=
  [(236/1000, "0.236"), (382/1000, "0.382"), (500/1000, "0.500"),
   (618/1000, "0.618"), (786/1000, "0.786"), (1, "1.000"), (1618/1000, "1.618")]

/-- `elliott_wave._compute_fib_levels`. -/
def compute_fib_levels (pivots : List Pivot) (pattern : WavePattern) : List FibLevel :=
  if pivots.length < 2 then []
  else
    let prices := pivots.map (·.price)
    let swingLow := minQ prices
    let swingHigh := maxQ prices
    let swingRange := swingHigh - swingLow
    if swingRange = 0 then []
    else
      FIB_PROJ.map fun rl =>
        if patternIsUp pattern then
          if rl.1 > 1 then
            { level := roundTo 2 (swingHigh + (rl.1 - 1) * swingRange), ratio := rl.2,
              label := "Extension " ++ rl.2 }
          else
            { level := roundTo 2 (swingHigh - rl.1 * swingRange), ratio := rl.2,
              label := "Retracement " ++ rl.2 }
        else
          if rl.1 > 1 then
            { level := roundTo 2 (swingLow - (rl.1 - 1) * swingRange), ratio := rl.2,
              label := "Extension " ++ rl.2 }
          else
            { level := roundTo 2 (swingLow + rl.1 * swingRange), ratio := rl.2,
              label := "Retracement " ++ rl.2 }

/-- `elliott_wave._determine_current_wave`; its `total_bars` argument is
never read by the body. -/
def determine_current_wave (pivots : List Pivot) (_totalBars : ℕ)
    (pattern : WavePattern) : String :=
  if pivots = [] then "1"
  else if patternIsImpulse pattern then
    ["1", "2", "3", "4", "5", "5"].getD (min pivots.length 6 - 1) "1"
  else if patternIsCorrective pattern then
    ["A", "B", "C", "C"].getD (min pivots.length 4 - 1) "A"
  else "1"

structure LabeledPivot where
  index : ℕ
  price : ℚ
  ptype : PivotType
  wave_label : String
deriving DecidableEq

structure WaveResult where
  pattern : WavePattern
  current_wave : String
  wave_pivots : List LabeledPivot
  confidence : ℚ
  fib_levels : List FibLevel
deriving DecidableEq

def unclearResult : WaveResult :=
  { pattern := .unclear, current_wave := "1", wave_pivots := [],
    confidence := 0, fib_levels := [] }

/-- The best-match accumulator of `detect_waves`. -/
structure BestMatch where
  pattern : WavePattern
  confidence : ℚ
  pivots : List Pivot
deriving DecidableEq

/-- Python `range(a, b)` (empty when `b ≤ a`). -/
def offsets (a b : ℕ) : List ℕ := (List.range (b - a)).map (a + ·)

/-- One iteration of the impulse-window loop of `detect_waves`. -/
def impulseFold (pivots : List Pivot) (best : BestMatch) (offset : ℕ) : BestMatch :=
  let segment := (pivots.drop offset).take 6
  if segment.length < 6 then best
  else if isImpulseUp segment then
    let conf := validateFibConfidence segment
    if conf > best.confidence then ⟨.impulse_up, conf, segment⟩ else best
  else if isImpulseDown segment then
    let conf := validateFibConfidence segment
    if conf > best.confidence then ⟨.impulse_down, conf, segment⟩ else best
  else best

/-- One iteration of the corrective-window loop of `detect_waves`
(fixed base confidence 0.4). -/
def correctiveFold (pivots : List Pivot) (best : BestMatch) (offset : ℕ) : BestMatch :=
  let segment := (pivots.drop offset).take 4
  if segment.length < 4 then best
  else if isCorrectiveUp segment then
    if (4/10 : ℚ) > best.confidence then ⟨.corrective_up, 4/10, segment⟩ else best
  else if isCorrectiveDown segment then
    if (4/10 : ℚ) > best.confidence then ⟨.corrective_down, 4/10, segment⟩ else best
  else best

/-- The pivot-labelling block of `detect_waves`; `start` is the offset of
the lookback slice in the full frame.  (For a six-pivot impulse the loop
index 5 falls past the five labels and `str(5) = "5"` is used.) -/
def labelPivots (best : BestMatch) (start : ℕ) : List LabeledPivot :=
  if patternIsImpulse best.pattern then
    (best.pivots.take 6).mapIdx fun i pv =>
      { index := pv.index + start, price := pv.price, ptype := pv.ptype,
        wave_label := ["1", "2", "3", "4", "5"].getD i (toString i) }
  else if patternIsCorrective best.pattern then
    (best.pivots.take 4).mapIdx fun i pv =>
      { index := pv.index + start, price := pv.price, ptype := pv.ptype,
        wave_label := ["start", "A", "B", "C"].getD i (toString i) }
  else []

/-- `elliott_wave.detect_waves`. -/
def detect_waves (bars : List Bar) (lookback : ℕ := 200) : WaveResult :=
  let n := bars.length
  if n < 50 then unclearResult
  else
    let start := n - lookback   -- `max(0, n - lookback)` via ℕ subtraction
    let slice := bars.drop start
    let pivots := zigzag_pivots slice
    if pivots.length < 4 then unclearResult
    else
      let best1 := (offsets (pivots.length - 8) (pivots.length - 5)).foldl
        (impulseFold pivots) ⟨.unclear, 0, []⟩
      let best := (offsets (pivots.length - 6) (pivots.length - 3)).foldl
        (correctiveFold pivots) best1
      { pattern := best.pattern,
        current_wave := determine_current_wave best.pivots n best.pattern,
        wave_pivots := labelPivots best start,
        confidence := min best.confidence 1,
        fib_levels := compute_fib_levels best.pivots best.pattern }

/-! ## Claim-side notions (spelled from the claims, for comparison) -/

/-- Price has retraced from pivot `p` by at least `ms` at bar `j`: for a
high pivot the bar's low sits `ms` below the pivot price, for a low pivot
the bar's high sits `ms` above it. -/
def retracesAt (bars : List Bar) (ms : ℚ) (p : Pivot) (j : ℕ) : Bool :=
  match p.ptype with
  | .high => decide (ms ≤ p.price - (bars.getD j ⟨0, 0, 0, 0⟩).low)
  | .low => decide (ms ≤ (bars.getD j ⟨0, 0, 0, 0⟩).high - p.price)

/-- The claim's notion of a confirmed pivot: some later bar of the series
retraces by at least `ms` from the pivot's extreme. -/
def pivotConfirmedB (bars : List Bar) (ms : ℚ) (p : Pivot) : Bool :=
  (List.range bars.length).any fun j =>
    decide (p.index < j) && retracesAt bars ms p j

/-- Twenty bars: nineteen flat ones, then a jump on the very last bar.
The zigzag tracker is still mid-upswing when the series ends, so its
final pivot is appended without retracement confirmation. -/
def bars20 : List Bar :=
  List.replicate 19 ⟨101, 100, 201/2, 1000⟩ ++ [⟨110, 105, 108, 1000⟩]

/-- Re-basing a labelled pivot's absolute index to the 200-bar lookback
slice of a series of `n` bars. -/
def relPivot (n : ℕ) (lp : LabeledPivot) : LabeledPivot :=
  { lp with index := lp.index - (n - 200) }

/-! ## Claim C1 — backtest no-lookahead -/

/-- C1.  No-lookahead: the composite signal the backtest loop computes at
trading day `d` (`backtestSignalAt`, i.e. `compute_composite` on the
inclusive slice `df.loc[:day]`) is unchanged — every field, in particular
`composite_score`, `direction`, `conviction` and `confidence` — when all
bars after `d` are deleted (`df.take (d+1)`) before recomputation. -/
theorem C1_no_lookahead (sq : ℚ → ℚ) (symbol : String) (df : List Bar) (d : ℕ) :
    backtestSignalAt sq symbol df d =
      backtestSignalAt sq symbol (df.take (d + 1)) d := by
  unfold backtestSignalAt
  rw [List.take_take, min_self]

/-! ## Claim C8 — backtest input validation -/

/-- C8 counterexample.  With `today = 100`, `start = end = 50` the router
rejects the request (`start >= end` guard) although the claim's condition
`end < start ∨ end in future ∨ range > 730` is false: the claim's "if and
only if" fails at `start = end`. -/
theorem C8_counterexample :
    backtestRejects 100 50 50 = true ∧
    ¬((50 : ℤ) < 50 ∨ (50 : ℤ) > 100 ∨ (50 : ℤ) - 50 > 730) := by decide

/-- C8 amended.  The entry point rejects iff `end ≤ start` (the code
tests `start >= end`), `end` is in the future, or the span exceeds the
configured `MAX_RANGE_DAYS = 730`. -/
theorem C8_amended (today s e : ℤ) :
    backtestRejects today s e = true ↔
      (e ≤ s ∨ e > today ∨ e - s > MAX_RANGE_DAYS) := by
  unfold backtestRejects MAX_RANGE_DAYS
  split_ifs with h1 h2 h3 <;> simp <;> omega

theorem C8_witness : backtestRejects 100 50 50 = true :=
  (C8_amended 100 50 50).mpr (Or.inl le_rfl)

/-! ## Claim C3 — composite confidence formula -/

/-- The claim's confidence formula as stated: `min(100, round(agreement·70
+ data_quality·30))` with Python (half-to-even) rounding. -/
def confidenceClaimRound (signals : List SignalDetail) : ℤ :=
  let dirs := signals.map (fun s => classifyDir s.score)
  let nonNeutral := dirs.filter (· ≠ 0)
  if nonNeutral = [] then 20
  else
    min 100 (rndHE (|(nonNeutral.sum : ℚ)| / nonNeutral.length * 70 +
      (nonNeutral.length : ℚ) / signals.length * 30))

/-- The claim amended to what the code computes: `int()` truncates the
(nonnegative) value toward zero instead of rounding it. -/
def confidenceSpecTrunc (signals : List SignalDetail) : ℤ :=
  let dirs := signals.map (fun s => classifyDir s.score)
  let nonNeutral := dirs.filter (· ≠ 0)
  if nonNeutral = [] then 20
  else
    min 100 (qfloor (|(nonNeutral.sum : ℚ)| / nonNeutral.length * 70 +
      (nonNeutral.length : ℚ) / signals.length * 30))

/-- Four scorer entries: non-neutral directions `+1, +1, −1` and one
neutral, so `agreement = 1/3`, `data_quality = 3/4`, and the mixed value
is `70/3 + 22.5 = 45.8333…`. -/
def sigs4 : List SignalDetail :=
  [⟨"a", 1/2, 0, ""⟩, ⟨"b", 1/2, 0, ""⟩, ⟨"c", -(1/2), 0, ""⟩, ⟨"d", 0, 0, ""⟩]

set_option maxRecDepth 8000 in
/-- C3 counterexample.  `_confidence` truncates 45.8333… to 45 where the
claim's `round` gives 46. -/
theorem C3_counterexample :
    confidenceOf sigs4 = 45 ∧ confidenceClaimRound sigs4 = 46 ∧
      (45 : ℤ) ≠ 46 := by decide

/-- C3 amended.  For every nonempty list of scorer entries, the code's
confidence is the claim's formula with `round` replaced by truncation
toward zero (`int()`); all-neutral still yields exactly 20. -/
theorem floor_min_hundred (x : ℚ) : ⌊min (100:ℚ) x⌋ = min (100:ℤ) ⌊x⌋ := by
  have h100 : ⌊(100:ℚ)⌋ = (100:ℤ) := by norm_num
  rcases le_total x 100 with hle | hge
  · rw [min_eq_right hle,
      min_eq_right (le_trans (Int.floor_le_floor hle) (le_of_eq h100))]
  · rw [min_eq_left hge, h100,
      min_eq_left (le_trans (le_of_eq h100.symm) (Int.floor_le_floor hge))]

theorem C3_amended (signals : List SignalDetail) (h : signals ≠ []) :
    confidenceOf signals = confidenceSpecTrunc signals := by
  simp only [confidenceOf, confidenceSpecTrunc]
  rw [if_neg h]
  split_ifs with hn
  · rfl
  · rw [qfloor_eq, qfloor_eq]
    exact floor_min_hundred _

theorem C3_witness : confidenceOf sigs4 = confidenceSpecTrunc sigs4 :=
  C3_amended sigs4 (by decide)

/-! ## Claim C5 — backtest hit rate -/

/-- Modelled from the claim: the hit rate as the percentage of days with
a defined forward return whose strict sign test passes. -/
def hitRateSpec (scores : List ℚ) (fwd : List (Option ℚ)) : ℚ :=
  let pairs := (scores.zip fwd).filterMap (fun p => p.2.map (fun r => (p.1, r)))
  roundTo 2
    (((pairs.filter (fun p => (p.1 > 0 ∧ p.2 > 0) ∨ (p.1 < 0 ∧ p.2 < 0))).length : ℚ) /
      pairs.length * 100)

/-- C5.  The hit rate of `_compute_horizon_metrics` is the percentage of
days (among those with a defined forward return) passing the strict sign
test `(s > 0 ∧ r > 0) ∨ (s < 0 ∧ r < 0)`; a day whose composite score or
forward return is exactly zero never satisfies the test, so it is not a
hit (and is likewise excluded from the win/loss tallies, whose products
are zero). -/
theorem C5_hit_rate (scores : List ℚ) (fwd : List (Option ℚ)) :
    (compute_horizon_metrics scores fwd).hit_rate = hitRateSpec scores fwd ∧
    (∀ s r : ℚ, s = 0 ∨ r = 0 →
      ¬((s > 0 ∧ r > 0) ∨ (s < 0 ∧ r < 0)) ∧ ¬(s * r > 0) ∧ ¬(s * r < 0)) := by
  constructor
  · unfold compute_horizon_metrics hitRateSpec
    by_cases hp : (scores.zip fwd).filterMap (fun p => p.2.map (fun r => (p.1, r))) = []
    · rw [if_pos hp, hp]
      show (0:ℚ) = roundTo 2 ((0:ℚ) / 0 * 100)
      norm_num [roundTo, rndHE, qfloor]
    · rw [if_neg hp]
  · intro s r h
    refine ⟨?_, ?_, ?_⟩
    · rintro (⟨h1, h2⟩ | ⟨h1, h2⟩) <;> rcases h with rfl | rfl <;> linarith
    · rcases h with rfl | rfl <;> simp
    · rcases h with rfl | rfl <;> simp

set_option maxRecDepth 8000 in
/-- C5 witness: scores `[1, 0, −2]` against forward returns
`[5%, 3%, −1%]` — the zero-score day is not a hit, hit rate
`round(2/3·100, 2) = 66.67`. -/
theorem C5_witness :
    (compute_horizon_metrics [1, 0, -2] [some 5, some 3, some (-1)]).hit_rate
        = 6667/100 ∧
    ¬(((0:ℚ) > 0 ∧ (3:ℚ) > 0) ∨ ((0:ℚ) < 0 ∧ (3:ℚ) < 0)) := by
  constructor
  · rw [(C5_hit_rate [1, 0, -2] [some 5, some 3, some (-1)]).1]
    decide
  · exact ((C5_hit_rate [1, 0, -2] [some 5, some 3, some (-1)]).2 0 3 (Or.inl rfl)).1

/-! ## Claim C6 — trend scorer -/

/-- The claim's trend value: three binary checks each worth exactly
`±1/3`. -/
def trendClaimThirds (close : List ℚ) : ℚ :=
  (if (emaList 20 close).getLastD 0 > (emaList 50 close).getLastD 0
    then (1:ℚ)/3 else -(1/3)) +
  (if (emaList 50 close).getLastD 0 > (emaList 200 close).getLastD 0
    then (1:ℚ)/3 else -(1/3)) +
  (if close.getLastD 0 > (emaList 200 close).getLastD 0
    then (1:ℚ)/3 else -(1/3))

set_option maxRecDepth 8000 in
/-- C6 counterexample.  On `close = [100, 200, 90]` the first two EMA
checks pass and the third fails: the code returns
`0.33 + 0.33 − 0.34 = 0.32`, the claim's thirds give `1/3`. -/
theorem C6_counterexample :
    score_trend [100, 200, 90] = .ok (8/25) ∧
    trendClaimThirds [100, 200, 90] = 1/3 ∧ ((8:ℚ)/25) ≠ 1/3 := by decide

/-- C6 amended.  For every nonempty close series (the `adjust=False` EMA
is defined from the first bar on) the trend score is the sum of the three
binary checks with contributions `±0.33`, `±0.33` and `±0.34`
respectively (the clamp never binds: the sum already lies in `[-1, 1]`). -/
theorem C6_amended (close : List ℚ) (h : close ≠ []) :
    score_trend close = .ok (
      (if (emaList 20 close).getLastD 0 > (emaList 50 close).getLastD 0
        then (33:ℚ)/100 else -(33/100)) +
      (if (emaList 50 close).getLastD 0 > (emaList 200 close).getLastD 0
        then (33:ℚ)/100 else -(33/100)) +
      (if close.getLastD 0 > (emaList 200 close).getLastD 0
        then (34:ℚ)/100 else -(34/100))) := by
  obtain ⟨c, hc⟩ : ∃ c, close.getLast? = some c := by
    cases hl : close.getLast? with
    | none => exact absurd (List.getLast?_eq_none_iff.mp hl) h
    | some c => exact ⟨c, rfl⟩
  have hcd : close.getLastD 0 = c := by
    rw [List.getLastD_eq_getLast?, hc, Option.getD_some]
  unfold score_trend
  rw [show ilast close = .ok c by unfold ilast; rw [hc]]
  show Except.ok (clamp _) = _
  rw [hcd]
  congr 1
  apply clamp_eq_self <;> split_ifs <;> norm_num

set_option maxRecDepth 8000 in
/-- C6 witness: on the single-bar series `[100]` all three checks fail
and the amended formula gives `−0.33 − 0.33 − 0.34 = −1`. -/
theorem C6_witness : score_trend [(100:ℚ)] = .ok (-1) := by
  rw [C6_amended [(100:ℚ)] (by decide)]
  decide

/-! ## Claim C4 — weight redistribution -/

/-- The non-sentiment weights can be read off the `(name, weight)`
projection of the signal list. -/
theorem filter_ne_pc_weights (sigs : List SignalDetail) :
    (sigs.filter (fun s => s.name ≠ "put_call_ratio")).map (fun s => s.weight) =
      ((sigs.map (fun s => (s.name, s.weight))).filter
        (fun p => p.1 ≠ "put_call_ratio")).map (fun p => p.2) := by
  induction sigs with
  | nil => rfl
  | cons a t ih =>
    simp only [ne_eq, decide_not] at ih
    by_cases h : a.name = "put_call_ratio" <;> simp [List.filter_cons, h, ih]

/-- `redistribute` never changes a score. -/
theorem redistribute_score_map (sigs : List SignalDetail) :
    (redistribute sigs).map (fun s => s.score) = sigs.map (fun s => s.score) := by
  simp only [redistribute]
  split_ifs with h
  · rw [List.map_map]
    apply List.map_congr_left
    intro s _
    by_cases hn : s.name = "put_call_ratio" <;> simp [hn]
  · rfl

/-- The `(name, weight)` image of the redistribution map is a function of
the `(name, weight)` image of its input. -/
theorem map_nw_redistribute_update (X : ℚ) (l : List SignalDetail) :
    (l.map (fun s => if s.name ≠ "put_call_ratio"
        then { s with weight := roundTo 4 (s.weight * (1 / X)) }
        else { s with weight := 0 })).map (fun s => (s.name, s.weight)) =
      (l.map (fun s => (s.name, s.weight))).map (fun p =>
        if p.1 ≠ "put_call_ratio" then (p.1, roundTo 4 (p.2 * (1 / X)))
        else (p.1, 0)) := by
  induction l with
  | nil => rfl
  | cons a t ih =>
    simp only [ne_eq] at ih
    by_cases h : a.name = "put_call_ratio" <;>
      simp [h, ih] <;>
      (intro s hs
       by_cases hn : s.name = "put_call_ratio" <;> simp [hn])

/-- Signal lists with the same `(name, weight)` projection redistribute
to the same `(name, weight)` projection. -/
theorem redistribute_map_nw_congr (sigs sigs2 : List SignalDetail)
    (h : sigs.map (fun s => (s.name, s.weight)) =
      sigs2.map (fun s => (s.name, s.weight))) :
    (redistribute sigs).map (fun s => (s.name, s.weight)) =
      (redistribute sigs2).map (fun s => (s.name, s.weight)) := by
  have hos : ((sigs.filter (fun s => s.name ≠ "put_call_ratio")).map
      (fun s => s.weight)).sum =
      ((sigs2.filter (fun s => s.name ≠ "put_call_ratio")).map
        (fun s => s.weight)).sum := by
    rw [filter_ne_pc_weights, filter_ne_pc_weights, h]
  simp only [redistribute]
  rw [hos]
  split_ifs with hpos
  · rw [map_nw_redistribute_update, map_nw_redistribute_update, h]
  · exact h

/-- The `(name, weight)` projection of the eleven evaluator entries does
not depend on the evaluator outcomes. -/
theorem base_map_nw (results : List (Except Unit ℚ))
    (h : evaluatorMeta.length ≤ results.length) :
    ((evaluatorMeta.zip results).map (fun p =>
        ({ name := p.1.1, score := roundTo 4 (caught p.2),
           weight := weightOf p.1.1, description := p.1.2 } : SignalDetail))).map
        (fun s => (s.name, s.weight)) =
      evaluatorMeta.map (fun m => (m.1, weightOf m.1)) := by
  rw [List.map_map]
  have h2 : ((fun s => (s.name, s.weight)) ∘ (fun (p : (String × String) × Except Unit ℚ) =>
      ({ name := p.1.1, score := roundTo 4 (caught p.2),
         weight := weightOf p.1.1, description := p.1.2 } : SignalDetail))) =
      ((fun (m : String × String) => (m.1, weightOf m.1)) ∘ Prod.fst) := rfl
  rw [h2, ← List.map_map, List.map_fst_zip _ _ h]

/-- The signal list of `compute_composite` with an absent put/call
ratio, spelled out (definitional). -/
theorem compute_composite_signals (sq : ℚ → ℚ) (symbol : String) (df : List Bar) :
    (compute_composite sq symbol df none).signals =
      redistribute (((evaluatorMeta.zip (evalScores sq df)).map (fun p =>
        ({ name := p.1.1, score := roundTo 4 (caught p.2),
           weight := weightOf p.1.1, description := p.1.2 } : SignalDetail))) ++
        [{ name := "put_call_ratio", score := roundTo 4 (score_put_call_ratio none),
           weight := weightOf "put_call_ratio",
           description := "Put/call ratio contrarian sentiment" }]) := rfl

set_option maxRecDepth 8000 in
/-- C4 counterexample.  Already on the empty frame with
`put_call_ratio = None` the redistributed non-sentiment weights sum to
exactly `1.0002` (each scaled weight is rounded to 4 decimal places):
off from 1.0 by `2·10⁻⁴`, far beyond floating-point tolerance. -/
theorem C4_counterexample :
    ((((compute_composite (fun _ => 0) "X" [] none).signals.filter
        (fun s => s.name ≠ "put_call_ratio")).map (fun s => s.weight)).sum
      = 5001/5000) ∧
    ¬(|(5001:ℚ)/5000 - 1| ≤ 1/1000000) := by decide

set_option maxRecDepth 8000 in
/-- C4 amended.  For every input frame with `put_call_ratio = None`: the
sentiment entry (the last signal, named `put_call_ratio`) has score 0.0
and weight exactly 0, the signal list has 12 entries, and the weights of
the remaining eleven entries sum to exactly `1.0002 = 5001/5000` (equal
to 1.0 only within `0.01`, the deviation forced by rounding each
redistributed weight to 4 decimal places). -/
theorem C4_amended (sq : ℚ → ℚ) (symbol : String) (df : List Bar) :
    ((compute_composite sq symbol df none).signals.map
        (fun s => (s.name, s.weight))).getLast? = some ("put_call_ratio", 0) ∧
    ((compute_composite sq symbol df none).signals.map
        (fun s => s.score)).getLast? = some 0 ∧
    (((compute_composite sq symbol df none).signals.filter
        (fun s => s.name ≠ "put_call_ratio")).map (fun s => s.weight)).sum
      = 5001/5000 ∧
    (compute_composite sq symbol df none).signals.length = 12 := by
  have hnw : (compute_composite sq symbol df none).signals.map
      (fun s => (s.name, s.weight)) =
      (compute_composite (fun _ => 0) "X" [] none).signals.map
        (fun s => (s.name, s.weight)) := by
    rw [compute_composite_signals, compute_composite_signals]
    apply redistribute_map_nw_congr
    rw [List.map_append, List.map_append,
      base_map_nw _ (Nat.le_of_eq rfl), base_map_nw _ (Nat.le_of_eq rfl)]
  refine ⟨?_, ?_, ?_, ?_⟩
  · rw [hnw]
    decide
  · rw [compute_composite_signals, redistribute_score_map, List.map_append]
    simp only [List.map_cons, List.map_nil]
    rw [List.getLast?_concat]
    decide
  · rw [filter_ne_pc_weights, hnw]
    decide
  · rw [← List.length_map (compute_composite sq symbol df none).signals
      (fun s => (s.name, s.weight)), hnw]
    decide

/-! ## Claim C9 — per-scorer fault isolation -/

/-- The score column of a composite signal, spelled out: the eleven
caught evaluator results, rounded, followed by the put/call score.
Weight redistribution never touches it. -/
theorem compositeCore_score_map (symbol : String) (results : List (Except Unit ℚ))
    (pcr : Option ℚ) :
    (compositeCore symbol results pcr).signals.map (fun s => s.score) =
      ((evaluatorMeta.zip results).map (fun p => roundTo 4 (caught p.2))) ++
        [roundTo 4 (score_put_call_ratio pcr)] := by
  simp only [compositeCore]
  split_ifs
  · rw [redistribute_score_map, List.map_append, List.map_map]
    rfl
  · rw [List.map_append, List.map_map]
    rfl

/-- Reading a zip against a list updated elsewhere is reading the zip
against the original list. -/
theorem get?_zip_set {α β : Type} (b : β) :
    ∀ (as : List α) (bs : List β) (i j : ℕ), j ≠ i →
      (as.zip (bs.set i b)).get? j = (as.zip bs).get? j := by
  intro as
  induction as with
  | nil => intro bs i j _; simp
  | cons a t ih =>
    intro bs i j hj
    cases bs with
    | nil => simp
    | cons b' bs' =>
      cases i with
      | zero =>
        cases j with
        | zero => exact absurd rfl hj
        | succ j' => simp [List.zip_cons_cons]
      | succ i' =>
        cases j with
        | zero => simp [List.zip_cons_cons]
        | succ j' =>
          simp only [List.set, List.zip_cons_cons, List.get?_cons_succ]
          exact ih bs' i' j' (fun h => hj (by rw [h]))

/-- Reading the snd-image of a zip at the updated position yields the
update. -/
theorem get?_map_snd_zip_set {α β γ : Type} (g : β → γ) (b : β) :
    ∀ (as : List α) (bs : List β) (i : ℕ), i < as.length → i < bs.length →
      ((as.zip (bs.set i b)).map (fun p => g p.2)).get? i = some (g b) := by
  intro as
  induction as with
  | nil => intro bs i h _; simp at h
  | cons a t ih =>
    intro bs i h1 h2
    cases bs with
    | nil => simp at h2
    | cons b' bs' =>
      cases i with
      | zero => simp
      | succ i' =>
        simp only [List.set, List.zip_cons_cons, List.map_cons, List.get?_cons_succ]
        exact ih bs' i' (Nat.lt_of_succ_lt_succ h1) (Nat.lt_of_succ_lt_succ h2)

/-- C9.  If the `i`-th of the eleven OHLCV evaluators raises (its result
replaced by `Except.error ()`), the composite computation still returns a
full 12-entry `CompositeSignal`, records score `0.0` for that evaluator,
and every other entry's score is exactly what it is in the un-faulted
run. -/
theorem C9_fault_isolation (sq : ℚ → ℚ) (symbol : String) (df : List Bar)
    (pcr : Option ℚ) (i : ℕ) (hi : i < 11) :
    (compositeCore symbol ((evalScores sq df).set i (Except.error ())) pcr).signals.length
      = 12 ∧
    ((compositeCore symbol ((evalScores sq df).set i (Except.error ())) pcr).signals.map
        (fun s => s.score)).get? i = some 0 ∧
    ∀ j, j ≠ i →
      ((compositeCore symbol ((evalScores sq df).set i (Except.error ())) pcr).signals.map
          (fun s => s.score)).get? j =
        ((compositeCore symbol (evalScores sq df) pcr).signals.map
            (fun s => s.score)).get? j := by
  have hm : evaluatorMeta.length = 11 := rfl
  have he : (evalScores sq df).length = 11 := rfl
  have hs : ((evalScores sq df).set i (Except.error ())).length = 11 := by
    rw [List.length_set]; exact he
  have hlen1 : ((evaluatorMeta.zip ((evalScores sq df).set i (Except.error ()))).map
      (fun p => roundTo 4 (caught p.2))).length = 11 := by
    rw [List.length_map, List.length_zip, hm, hs]
    decide
  have hlen2 : ((evaluatorMeta.zip (evalScores sq df)).map
      (fun p => roundTo 4 (caught p.2))).length = 11 := by
    rw [List.length_map, List.length_zip, hm, he]
    decide
  refine ⟨?_, ?_, ?_⟩
  · rw [← List.length_map ((compositeCore symbol ((evalScores sq df).set i
        (Except.error ())) pcr).signals) (fun s => s.score),
      compositeCore_score_map, List.length_append, hlen1]
    simp
  · rw [compositeCore_score_map, List.get?_append (by rw [hlen1]; exact hi)]
    rw [show some (0:ℚ) = some ((fun e => roundTo 4 (caught e)) (Except.error ())) from
      by decide]
    exact get?_map_snd_zip_set (fun e => roundTo 4 (caught e)) (Except.error ())
      evaluatorMeta (evalScores sq df) i (by rw [hm]; exact hi) (by rw [he]; exact hi)
  · intro j hj
    rw [compositeCore_score_map, compositeCore_score_map]
    by_cases hjl : j < 11
    · rw [List.get?_append (by rw [hlen1]; exact hjl),
        List.get?_append (by rw [hlen2]; exact hjl),
        List.get?_map, List.get?_map, get?_zip_set _ _ _ _ _ hj]
    · rw [List.get?_append_right (by rw [hlen1]; omega),
        List.get?_append_right (by rw [hlen2]; omega), hlen1, hlen2]

/-- C9 witness: fault injected into the first evaluator on the empty
frame. -/
theorem C9_witness :
    (compositeCore "X" ((evalScores (fun _ => 0) []).set 0 (Except.error ())) none).signals.length
      = 12 ∧
    ((compositeCore "X" ((evalScores (fun _ => 0) []).set 0 (Except.error ())) none).signals.map
        (fun s => s.score)).get? 0 = some 0 ∧
    ((compositeCore "X" ((evalScores (fun _ => 0) []).set 0 (Except.error ())) none).signals.map
        (fun s => s.score)).get? 1 =
      ((compositeCore "X" (evalScores (fun _ => 0) []) none).signals.map
          (fun s => s.score)).get? 1 :=
  ⟨(C9_fault_isolation (fun _ => 0) "X" [] none 0 (by decide)).1,
   (C9_fault_isolation (fun _ => 0) "X" [] none 0 (by decide)).2.1,
   (C9_fault_isolation (fun _ => 0) "X" [] none 0 (by decide)).2.2 1 (by decide)⟩

/-! ## Claim C2 — bounded outputs -/

/-- Inverting a successful `Except` bind. -/
theorem except_bind_ok {α β : Type} (x : Except Unit α) (f : α → Except Unit β) (b : β)
    (h : x.bind f = .ok b) : ∃ a, x = .ok a ∧ f a = .ok b := by
  cases x with
  | error e => simp [Except.bind] at h
  | ok a => exact ⟨a, rfl, h⟩

/-- Inverting a successful `pure`. -/
theorem pure_ok {β : Type} (a b : β) (h : (pure a : Except Unit β) = .ok b) : a = b := by
  simp only [pure, Except.pure, Except.ok.injEq] at h
  exact h

theorem score_ma_crossover_bounds (close : List ℚ) (fast slow : ℕ) (v : ℚ)
    (h : score_ma_crossover close fast slow = .ok v) : -1 ≤ v ∧ v ≤ 1 := by
  unfold score_ma_crossover at h
  obtain ⟨f?, _, h⟩ := except_bind_ok _ _ _ h
  obtain ⟨s?, _, h⟩ := except_bind_ok _ _ _ h
  cases f? with
  | none => cases pure_ok _ _ h; norm_num
  | some f =>
    cases s? with
    | none => cases pure_ok _ _ h; norm_num
    | some s => cases pure_ok _ _ h; exact clamp_bounds _

theorem score_rsi_bounds (close : List ℚ) (period : ℕ) (v : ℚ)
    (h : score_rsi close period = .ok v) : -1 ≤ v ∧ v ≤ 1 := by
  unfold score_rsi at h
  obtain ⟨r?, _, h⟩ := except_bind_ok _ _ _ h
  cases r? with
  | none => cases pure_ok _ _ h; norm_num
  | some value =>
    simp only [] at h
    split_ifs at h <;> cases pure_ok _ _ h
    · exact clamp_bounds _
    · exact clamp_bounds _
    · norm_num

theorem score_macd_bounds (sq : ℚ → ℚ) (close : List ℚ) (v : ℚ)
    (h : score_macd sq close = .ok v) : -1 ≤ v ∧ v ≤ 1 := by
  unfold score_macd at h
  obtain ⟨hv, _, h⟩ := except_bind_ok _ _ _ h
  simp only [] at h
  split_ifs at h <;> cases pure_ok _ _ h
  · norm_num
  · norm_num
  · exact clamp_bounds _

theorem score_bollinger_bounds (sq : ℚ → ℚ) (close : List ℚ) (w : ℕ) (v : ℚ)
    (h : score_bollinger sq close w = .ok v) : -1 ≤ v ∧ v ≤ 1 := by
  unfold score_bollinger at h
  obtain ⟨c, _, h⟩ := except_bind_ok _ _ _ h
  simp only [] at h
  split_ifs at h <;> cases pure_ok _ _ h
  · norm_num
  · norm_num
  · exact clamp_bounds _

theorem score_mean_reversion_bounds (sq : ℚ → ℚ) (close : List ℚ) (w : ℕ) (v : ℚ)
    (h : score_mean_reversion sq close w = .ok v) : -1 ≤ v ∧ v ≤ 1 := by
  unfold score_mean_reversion at h
  obtain ⟨c, _, h⟩ := except_bind_ok _ _ _ h
  simp only [] at h
  split_ifs at h <;> cases pure_ok _ _ h
  · norm_num
  · norm_num
  · exact clamp_bounds _

theorem score_trend_bounds (close : List ℚ) (v : ℚ)
    (h : score_trend close = .ok v) : -1 ≤ v ∧ v ≤ 1 := by
  unfold score_trend at h
  obtain ⟨c, _, h⟩ := except_bind_ok _ _ _ h
  cases pure_ok _ _ h
  exact clamp_bounds _

theorem score_volume_trend_bounds (close volume : List ℚ) (w : ℕ) (v : ℚ)
    (h : score_volume_trend close volume w = .ok v) : -1 ≤ v ∧ v ≤ 1 := by
  unfold score_volume_trend at h
  simp only [] at h
  split_ifs at h <;> cases pure_ok _ _ h <;>
    first
    | exact clamp_bounds _
    | norm_num

theorem score_ad_line_bounds (bars : List Bar) (w : ℕ) (v : ℚ)
    (h : score_ad_line bars w = .ok v) : -1 ≤ v ∧ v ≤ 1 := by
  unfold score_ad_line at h
  simp only [] at h
  split_ifs at h <;> cases pure_ok _ _ h <;> norm_num

theorem score_cmf_bounds (bars : List Bar) (v : ℚ)
    (h : score_cmf bars = .ok v) : -1 ≤ v ∧ v ≤ 1 := by
  unfold score_cmf at h
  obtain ⟨c?, _, h⟩ := except_bind_ok _ _ _ h
  cases c? with
  | none => cases pure_ok _ _ h; norm_num
  | some c =>
    simp only [] at h
    cases pure_ok _ _ h
    exact clamp_bounds _

theorem score_put_call_ratio_bounds (r : Option ℚ) :
    -1 ≤ score_put_call_ratio r ∧ score_put_call_ratio r ≤ 1 := by
  unfold score_put_call_ratio
  cases r with
  | none => norm_num
  | some q =>
    simp only []
    split_ifs
    · exact clamp_bounds _
    · exact clamp_bounds _
    · norm_num

theorem score_adx_bounds (bars : List Bar) (v : ℚ)
    (h : score_adx bars = .ok v) : -1 ≤ v ∧ v ≤ 1 := by
  unfold score_adx at h
  obtain ⟨a?, _, h⟩ := except_bind_ok _ _ _ h
  cases a? with
  | none => cases pure_ok _ _ h; norm_num
  | some adxVal =>
    simp only [] at h
    split_ifs at h <;> cases pure_ok _ _ h <;>
      first
      | exact clamp_bounds _
      | norm_num

theorem score_stochastic_bounds (bars : List Bar) (v : ℚ)
    (h : score_stochastic bars = .ok v) : -1 ≤ v ∧ v ≤ 1 := by
  unfold score_stochastic at h
  obtain ⟨k?, _, h⟩ := except_bind_ok _ _ _ h
  obtain ⟨d?, _, h⟩ := except_bind_ok _ _ _ h
  cases k? with
  | none => cases d? <;> (cases pure_ok _ _ h; norm_num)
  | some kVal =>
    cases d? with
    | none => cases pure_ok _ _ h; norm_num
    | some dVal =>
      simp only [] at h
      by_cases hlen : bars.length ≥ 2
      · rw [if_pos hlen] at h
        rcases hpk : (stochK bars).getD (bars.length - 2) none with _ | pk <;>
          rcases hpd : (stochD bars).getD (bars.length - 2) none with _ | pd <;>
          rw [hpk, hpd] at h <;>
          (try simp only [] at h) <;>
          split_ifs at h <;> cases pure_ok _ _ h <;>
            first
            | exact clamp_bounds _
            | norm_num
      · rw [if_neg hlen] at h
        split_ifs at h <;> cases pure_ok _ _ h <;>
          first
          | exact clamp_bounds _
          | norm_num

theorem confidenceOf_bounds (signals : List SignalDetail) :
    0 ≤ confidenceOf signals ∧ confidenceOf signals ≤ 100 := by
  unfold confidenceOf
  simp only []
  split_ifs with h1 h2
  · norm_num
  · norm_num
  · rw [qfloor_eq, floor_min_hundred]
    constructor
    · refine le_min (by norm_num) ?_
      refine Int.le_floor.mpr ?_
      push_cast
      positivity
    · exact min_le_left _ _

theorem roundTo4_clamp_bounds (x : ℚ) :
    -1 ≤ roundTo 4 (clamp x) ∧ roundTo 4 (clamp x) ≤ 1 := by
  have hb := clamp_bounds x
  have h1 : |clamp x| ≤ ((10 ^ 4 : ℤ) : ℚ) / 10 ^ 4 := by
    rw [show (((10:ℤ) ^ 4 : ℤ) : ℚ) / 10 ^ 4 = 1 by norm_num, abs_le]
    exact hb
  have h2 := @roundTo_bound 4 (clamp x) (10 ^ 4) h1
  rw [show (((10:ℤ) ^ 4 : ℤ) : ℚ) / 10 ^ 4 = 1 by norm_num, abs_le] at h2
  exact h2

theorem compute_composite_score_bounds (sq : ℚ → ℚ) (symbol : String) (df : List Bar)
    (pcr : Option ℚ) :
    -1 ≤ (compute_composite sq symbol df pcr).composite_score ∧
      (compute_composite sq symbol df pcr).composite_score ≤ 1 := by
  obtain ⟨S, hS⟩ : ∃ S, (compute_composite sq symbol df pcr).composite_score
      = roundTo 4 (clamp S) := ⟨_, rfl⟩
  rw [hS]
  exact roundTo4_clamp_bounds S

theorem compute_composite_confidence_bounds (sq : ℚ → ℚ) (symbol : String)
    (df : List Bar) (pcr : Option ℚ) :
    0 ≤ (compute_composite sq symbol df pcr).confidence ∧
      (compute_composite sq symbol df pcr).confidence ≤ 100 := by
  obtain ⟨sigs, hs⟩ : ∃ sigs, (compute_composite sq symbol df pcr).confidence
      = confidenceOf sigs := ⟨_, rfl⟩
  rw [hs]
  exact confidenceOf_bounds sigs

theorem impulseFold_nonneg (pivots : List Pivot) (best : BestMatch) (off : ℕ)
    (h : 0 ≤ best.confidence) : 0 ≤ (impulseFold pivots best off).confidence := by
  unfold impulseFold
  simp only []
  split_ifs <;>
    first
    | exact h
    | (dsimp only; linarith)

theorem correctiveFold_nonneg (pivots : List Pivot) (best : BestMatch) (off : ℕ)
    (h : 0 ≤ best.confidence) : 0 ≤ (correctiveFold pivots best off).confidence := by
  unfold correctiveFold
  simp only []
  split_ifs <;>
    first
    | exact h
    | (dsimp only; norm_num)

theorem foldl_confidence_nonneg (f : BestMatch → ℕ → BestMatch)
    (hf : ∀ b o, 0 ≤ b.confidence → 0 ≤ (f b o).confidence) :
    ∀ (l : List ℕ) (b : BestMatch), 0 ≤ b.confidence → 0 ≤ (l.foldl f b).confidence := by
  intro l
  induction l with
  | nil => intro b hb; exact hb
  | cons a t ih => intro b hb; exact ih (f b a) (hf b a hb)

theorem detect_waves_confidence_bounds (bars : List Bar) (lookback : ℕ) :
    0 ≤ (detect_waves bars lookback).confidence ∧
      (detect_waves bars lookback).confidence ≤ 1 := by
  unfold detect_waves
  simp only []
  split_ifs with h1 h2
  · exact ⟨le_refl 0, by norm_num [unclearResult]⟩
  · exact ⟨le_refl 0, by norm_num [unclearResult]⟩
  · dsimp only
    constructor
    · refine le_min ?_ (by norm_num)
      refine foldl_confidence_nonneg _ (correctiveFold_nonneg _) _ _ ?_
      exact foldl_confidence_nonneg _ (impulseFold_nonneg _) _ _ (le_refl 0)
    · exact min_le_right _ _

/-- C2.  Bounded outputs: every scorer returns (when it returns at all) a
value in `[-1, 1]`; the composite score of `compute_composite` lies in
`[-1, 1]` and its confidence in `[0, 100]`; the confidence of
`detect_waves` lies in `[0, 1]`. -/
theorem C2_bounded_outputs :
    (∀ close fast slow v, score_ma_crossover close fast slow = .ok v → -1 ≤ v ∧ v ≤ 1) ∧
    (∀ close period v, score_rsi close period = .ok v → -1 ≤ v ∧ v ≤ 1) ∧
    (∀ sq close v, score_macd sq close = .ok v → -1 ≤ v ∧ v ≤ 1) ∧
    (∀ sq close w v, score_bollinger sq close w = .ok v → -1 ≤ v ∧ v ≤ 1) ∧
    (∀ sq close w v, score_mean_reversion sq close w = .ok v → -1 ≤ v ∧ v ≤ 1) ∧
    (∀ close v, score_trend close = .ok v → -1 ≤ v ∧ v ≤ 1) ∧
    (∀ close volume w v, score_volume_trend close volume w = .ok v → -1 ≤ v ∧ v ≤ 1) ∧
    (∀ bars v, score_adx bars = .ok v → -1 ≤ v ∧ v ≤ 1) ∧
    (∀ bars v, score_stochastic bars = .ok v → -1 ≤ v ∧ v ≤ 1) ∧
    (∀ bars w v, score_ad_line bars w = .ok v → -1 ≤ v ∧ v ≤ 1) ∧
    (∀ bars v, score_cmf bars = .ok v → -1 ≤ v ∧ v ≤ 1) ∧
    (∀ r, -1 ≤ score_put_call_ratio r ∧ score_put_call_ratio r ≤ 1) ∧
    (∀ sq symbol df pcr, -1 ≤ (compute_composite sq symbol df pcr).composite_score ∧
        (compute_composite sq symbol df pcr).composite_score ≤ 1) ∧
    (∀ sq symbol df pcr, 0 ≤ (compute_composite sq symbol df pcr).confidence ∧
        (compute_composite sq symbol df pcr).confidence ≤ 100) ∧
    (∀ bars lookback, 0 ≤ (detect_waves bars lookback).confidence ∧
        (detect_waves bars lookback).confidence ≤ 1) :=
  ⟨score_ma_crossover_bounds, score_rsi_bounds, score_macd_bounds,
   score_bollinger_bounds, score_mean_reversion_bounds, score_trend_bounds,
   score_volume_trend_bounds, score_adx_bounds, score_stochastic_bounds,
   score_ad_line_bounds, score_cmf_bounds, score_put_call_ratio_bounds,
   compute_composite_score_bounds, compute_composite_confidence_bounds,
   detect_waves_confidence_bounds⟩

set_option maxRecDepth 8000 in
/-- C2 witness: the scorer hypotheses discharged at concrete one-bar
inputs (`score_ma_crossover [100] = ok 0`, `score_macd _ [100] = ok 1`
— the NaN-clamp case — and `score_trend [100] = ok (-1)`). -/
theorem C2_witness :
    ((-1:ℚ) ≤ 0 ∧ (0:ℚ) ≤ 1) ∧ ((-1:ℚ) ≤ 1 ∧ (1:ℚ) ≤ 1) ∧
      ((-1:ℚ) ≤ -1 ∧ (-1:ℚ) ≤ 1) :=
  ⟨C2_bounded_outputs.1 [100] 20 50 0 (by decide),
   C2_bounded_outputs.2.2.1 (fun _ => 0) [100] 1 (by decide),
   C2_bounded_outputs.2.2.2.2.2.1 [100] (-1) (by decide)⟩

/-! ## Claim C7 — zigzag pivot confirmation -/

set_option maxRecDepth 100000 in
/-- C7 counterexample.  On `bars20` the swing threshold is `1.5` and the
zigzag detector returns a final pivot `⟨19, 110, high⟩` that no later bar
confirms (there is no bar after index 19 at all): the claim that *every*
returned pivot is retracement-confirmed fails on the appended pending
pivot. -/
theorem C7_counterexample :
    minSwingOf bars20 = some (3/2) ∧
    zigzag_pivots bars20 = [⟨0, 100, .low⟩, ⟨19, 110, .high⟩] ∧
    (⟨19, 110, .high⟩ : Pivot) ∈ zigzag_pivots bars20 ∧
    pivotConfirmedB bars20 (3/2) ⟨19, 110, .high⟩ = false ∧
    20 ≤ bars20.length := by decide

/-- A single later retracing bar witnesses confirmation. -/
theorem pivotConfirmed_of_witness (bars : List Bar) (ms : ℚ) (p : Pivot) (j : ℕ)
    (hj1 : p.index < j) (hj2 : j < bars.length)
    (hr : retracesAt bars ms p j = true) : pivotConfirmedB bars ms p = true := by
  unfold pivotConfirmedB
  rw [List.any_eq_true]
  refine ⟨j, List.mem_range.mpr hj2, ?_⟩
  rw [Bool.and_eq_true, decide_eq_true_eq]
  exact ⟨hj1, hr⟩

/-- One zigzag step preserves the loop invariant: candidate extremes sit
strictly before the next index, every emitted pivot is confirmed by a
later bar, and in the seeking state nothing has been emitted. -/
theorem zzStep_inv (bars : List Bar) (ms : ℚ) (st : ZZState) (i : ℕ) (b : Bar)
    (hb : bars.get? i = some b)
    (hH : st.lastHighIdx < i) (hL : st.lastLowIdx < i)
    (hconf : ∀ p ∈ st.pivots, pivotConfirmedB bars ms p = true)
    (hdir : st.direction = 0 → st.pivots = []) :
    (zzStep ms st i b).lastHighIdx < i + 1 ∧
    (zzStep ms st i b).lastLowIdx < i + 1 ∧
    (∀ p ∈ (zzStep ms st i b).pivots, pivotConfirmedB bars ms p = true) ∧
    ((zzStep ms st i b).direction = 0 → (zzStep ms st i b).pivots = []) := by
  have hilen : i < bars.length := List.get?_eq_some.mp hb |>.choose
  have hgd : bars.getD i ⟨0, 0, 0, 0⟩ = b := by
    unfold List.getD
    rw [hb]
    rfl
  have hconfLow : ms ≤ b.high - st.lastLowVal →
      pivotConfirmedB bars ms ⟨st.lastLowIdx, st.lastLowVal, .low⟩ = true := by
    intro hg
    refine pivotConfirmed_of_witness bars ms _ i hL hilen ?_
    unfold retracesAt
    rw [decide_eq_true_eq, hgd]
    exact hg
  have hconfHigh : ms ≤ st.lastHighVal - b.low →
      pivotConfirmedB bars ms ⟨st.lastHighIdx, st.lastHighVal, .high⟩ = true := by
    intro hg
    refine pivotConfirmed_of_witness bars ms _ i hH hilen ?_
    unfold retracesAt
    rw [decide_eq_true_eq, hgd]
    exact hg
  have hmem : ∀ (q : Pivot) (hq : pivotConfirmedB bars ms q = true)
      (p : Pivot), p ∈ st.pivots ++ [q] → pivotConfirmedB bars ms p = true := by
    intro q hq p hp
    rcases List.mem_append.mp hp with h | h
    · exact hconf p h
    · rw [List.mem_singleton] at h
      rw [h]
      exact hq
  unfold zzStep
  simp only []
  split_ifs with h1 h2 h3 h4 h5 h6 h7 h8 h9 h10 <;>
    refine ⟨?_, ?_, ?_, ?_⟩ <;>
    dsimp only <;>
    first
    | omega
    | exact hconf
    | exact hdir
    | (exact hmem _ (hconfLow (by linarith)) )
    | (exact hmem _ (hconfHigh (by linarith)) )

/-- The zigzag loop invariant, carried along the remaining suffix of the
bar list. -/
theorem zzLoop_inv (bars : List Bar) (ms : ℚ) :
    ∀ (suf : List Bar) (i : ℕ) (st : ZZState),
      bars.drop i = suf →
      st.lastHighIdx < i → st.lastLowIdx < i →
      (∀ p ∈ st.pivots, pivotConfirmedB bars ms p = true) →
      (st.direction = 0 → st.pivots = []) →
      (∀ p ∈ (zzLoop ms i suf st).pivots, pivotConfirmedB bars ms p = true) ∧
        ((zzLoop ms i suf st).direction = 0 → (zzLoop ms i suf st).pivots = []) := by
  intro suf
  induction suf with
  | nil => intro i st _ _ _ hconf hdir; exact ⟨hconf, hdir⟩
  | cons b rest ih =>
    intro i st hdrop hH hL hconf hdir
    have hb : bars.get? i = some b := by
      have h0 : (bars.drop i).get? 0 = some b := by rw [hdrop]; rfl
      rw [List.get?_drop] at h0
      simpa using h0
    have hdrop2 : bars.drop (i + 1) = rest := by
      have ht := List.tail_drop bars i
      rw [hdrop] at ht
      exact ht.symm
    obtain ⟨k1, k2, k3, k4⟩ := zzStep_inv bars ms st i b hb hH hL hconf hdir
    exact ih (i + 1) (zzStep ms st i b) hdrop2 k1 k2 k3 k4

/-- C7 amended.  Series shorter than 20 bars yield no pivots, and every
pivot except possibly the final one (the pending extreme that
`zigzag_pivots` appends after the loop without confirmation) is
retracement-confirmed by a later bar. -/
theorem C7_amended (bars : List Bar) :
    (bars.length < 20 → zigzag_pivots bars = []) ∧
    (∀ ms, minSwingOf bars = some ms →
      ∀ p ∈ (zigzag_pivots bars).dropLast, pivotConfirmedB bars ms p = true) := by
  constructor
  · intro h
    unfold zigzag_pivots
    rw [if_pos h]
  · intro ms hms p hp
    unfold zigzag_pivots at hp
    split_ifs at hp with hlen
    · simp at hp
    · rw [hms] at hp
      cases bars with
      | nil => simp at hp
      | cons b0 rest =>
        simp only [] at hp
        obtain ⟨hconfAll, hdir0⟩ := zzLoop_inv (b0 :: rest) ms rest 1 (zzInit b0) rfl
          (by simp [zzInit]) (by simp [zzInit])
          (by intro q hq; exact absurd hq (List.not_mem_nil q))
          (fun _ => rfl)
        by_cases hd1 : (zzLoop ms 1 rest (zzInit b0)).direction = 1
        · rw [if_pos hd1, List.dropLast_concat] at hp
          exact hconfAll p hp
        · rw [if_neg hd1] at hp
          by_cases hd2 : (zzLoop ms 1 rest (zzInit b0)).direction = -1
          · rw [if_pos hd2, List.dropLast_concat] at hp
            exact hconfAll p hp
          · rw [if_neg hd2, List.append_nil] at hp
            exact hconfAll p ((List.dropLast_sublist _).mem hp)

set_option maxRecDepth 100000 in
/-- C7 witness for the amended statement, at `bars20` and a 5-bar
series. -/
theorem C7_witness :
    zigzag_pivots (List.replicate 5 ⟨101, 100, 201/2, 1000⟩) = [] ∧
    (∀ p ∈ (zigzag_pivots bars20).dropLast, pivotConfirmedB bars20 (3/2) p = true) :=
  ⟨(C7_amended (List.replicate 5 ⟨101, 100, 201/2, 1000⟩)).1 (by decide),
   (C7_amended bars20).2 (3/2) (by decide)⟩

/-! ## Claim C10 — implicit 200-bar lookback of the wave detector -/

/-- Mapping over `mapIdx` composes pointwise. -/
theorem map_mapIdx_comp {α β γ : Type} (l : List α) (f : ℕ → α → β) (g : β → γ) :
    (l.mapIdx f).map g = l.mapIdx (fun i a => g (f i a)) := by
  induction l generalizing f with
  | nil => rfl
  | cons a t ih =>
    simp only [List.mapIdx_cons, List.map_cons]
    rw [ih]

set_option maxRecDepth 8000 in
/-- Re-basing the labelled pivots cancels the slice offset. -/
theorem relPivot_labelPivots (best : BestMatch) (n : ℕ) :
    (labelPivots best (n - 200)).map (relPivot n) = labelPivots best 0 := by
  unfold labelPivots
  split_ifs
  · rw [map_mapIdx_comp]
    congr 1
    funext i pv
    unfold relPivot
    simp
  · rw [map_mapIdx_comp]
    congr 1
    funext i pv
    unfold relPivot
    simp
  · simp

set_option maxRecDepth 40000 in
/-- C10.  The wave detector reads only the last 200 bars: two series of
length at least 50 that agree on their last 200 bars get the same
pattern, current wave, confidence and Fibonacci levels, and the same
wave pivots once their absolute bar indices are re-based to the slice
(`relPivot`); earlier bars never influence the result. -/
theorem C10_lookback (b₁ b₂ : List Bar)
    (h₁ : 50 ≤ b₁.length) (h₂ : 50 ≤ b₂.length)
    (h : lastN 200 b₁ = lastN 200 b₂) :
    (detect_waves b₁ 200).pattern = (detect_waves b₂ 200).pattern ∧
    (detect_waves b₁ 200).current_wave = (detect_waves b₂ 200).current_wave ∧
    (detect_waves b₁ 200).confidence = (detect_waves b₂ 200).confidence ∧
    (detect_waves b₁ 200).fib_levels = (detect_waves b₂ 200).fib_levels ∧
    (detect_waves b₁ 200).wave_pivots.map (relPivot b₁.length) =
      (detect_waves b₂ 200).wave_pivots.map (relPivot b₂.length) := by
  have h50 : ¬ b₁.length < 50 := by omega
  have h50' : ¬ b₂.length < 50 := by omega
  have hs : b₁.drop (b₁.length - 200) = b₂.drop (b₂.length - 200) := h
  refine ⟨?_, ?_, ?_, ?_, ?_⟩ <;>
    (unfold detect_waves
     simp only []
     rw [if_neg h50, if_neg h50', hs]
     split_ifs)
  · rfl
  · rfl
  · rfl
  · rfl
  · rfl
  · rfl
  · rfl
  · rfl
  · rfl
  · dsimp only
    rw [relPivot_labelPivots, relPivot_labelPivots]

set_option maxRecDepth 100000 in
/-- C10 witness: a 50-bar flat series compared with itself. -/
theorem C10_witness :
    (detect_waves (List.replicate 50 (⟨101, 100, 201/2, 1000⟩ : Bar)) 200).pattern
        = (detect_waves (List.replicate 50 (⟨101, 100, 201/2, 1000⟩ : Bar)) 200).pattern ∧
    (detect_waves (List.replicate 50 (⟨101, 100, 201/2, 1000⟩ : Bar)) 200).current_wave
        = (detect_waves (List.replicate 50 (⟨101, 100, 201/2, 1000⟩ : Bar)) 200).current_wave ∧
    (detect_waves (List.replicate 50 (⟨101, 100, 201/2, 1000⟩ : Bar)) 200).confidence
        = (detect_waves (List.replicate 50 (⟨101, 100, 201/2, 1000⟩ : Bar)) 200).confidence ∧
    (detect_waves (List.replicate 50 (⟨101, 100, 201/2, 1000⟩ : Bar)) 200).fib_levels
        = (detect_waves (List.replicate 50 (⟨101, 100, 201/2, 1000⟩ : Bar)) 200).fib_levels ∧
    (detect_waves (List.replicate 50 (⟨101, 100, 201/2, 1000⟩ : Bar)) 200).wave_pivots.map
          (relPivot (List.replicate 50 (⟨101, 100, 201/2, 1000⟩ : Bar)).length)
        = (detect_waves (List.replicate 50 (⟨101, 100, 201/2, 1000⟩ : Bar)) 200).wave_pivots.map
          (relPivot (List.replicate 50 (⟨101, 100, 201/2, 1000⟩ : Bar)).length) :=
  C10_lookback (List.replicate 50 ⟨101, 100, 201/2, 1000⟩)
    (List.replicate 50 ⟨101, 100, 201/2, 1000⟩) (by decide) (by decide) rfl

end Pat
